import Mathlib

/-
Verification development for the hazard-pointer SMR primitive in
src/hazard/domain.hpp and src/hazard/hazard_pointer.hpp.

Pointer values are modelled as natural numbers below 2 ^ 64 (the
uintptr_t bit patterns).  The FREE encoding is the null pointer 0, the
RESERVED sentinel is the all-ones pattern 2 ^ 64 - 1
(reserved::sentinel, domain.hpp line 28) and the RESET encoding is
2 ^ 64 - 2 (reserved::reset, domain.hpp line 31).  The domain's fixed
cell array is modelled as a list of cell values; the per-thread retire
queue as a list of retired pointers.
-/

namespace Conc

/-- Null pointer bit pattern: the FREE encoding of a cell. -/
def nullPtr : Nat := 0

/-- Bit pattern of reserved::sentinel (domain.hpp line 28): the all-ones
word, the RESERVED encoding of a freshly captured cell. -/
def sentinelPtr : Nat := 2 ^ 64 - 1

/-- Bit pattern of reserved::reset (domain.hpp line 31): all-ones minus
one, the RESET encoding of an owned cell that protects nothing. -/
def resetPtr : Nat := 2 ^ 64 - 2

/-- Addresses at which an object of the given size can live: non-null,
and with a representable one-past-the-end pointer below the address
space top. -/
def valid_obj_addr (size p : Nat) : Prop :=
  0 < p ∧ p + size < 2 ^ 64

/-- Sweep of capture_cell (domain.hpp lines 42-48) starting at cell
index i: claim the first FREE cell by storing the RESERVED sentinel
into it (the CAS from nullptr), returning the claimed index and the
updated array; none when the remaining cells are all taken. -/
def capture_sweep : Nat → List Nat → Option (Nat × List Nat)
  | _, [] => none
  | i, c :: cs =>
    if c = nullPtr then some (i, sentinelPtr :: cs)
    else
      match capture_sweep (i + 1) cs with
      | some (j, cs') => some (j, c :: cs')
      | none => none

/-- hazard_domain::capture_cell (domain.hpp lines 41-51): one sweep of
the cell array in index order; none models the std::abort on a full
sweep without a FREE cell. -/
def capture_cell (cells : List Nat) : Option (Nat × List Nat) :=
  capture_sweep 0 cells

/-- Iterated captures: perform the given number of capture_cell calls
in sequence, failing if any of them aborts. -/
def capture_n : Nat → List Nat → Option (List Nat)
  | 0, cells => some cells
  | k + 1, cells =>
    match capture_cell cells with
    | some r => capture_n k r.2
    | none => none

/-- hazard_domain::release_cell (domain.hpp lines 53-57): store the
FREE encoding into the owned cell; a null cell handle releases
nothing. -/
def release_cell (cells : List Nat) (cell : Option Nat) : List Nat :=
  match cell with
  | none => cells
  | some i => cells.set i nullPtr

/-- Hazard test of scan_for_hazard (domain.hpp lines 95-96) applied to
one cell value: the loaded value is not null, not the RESERVED
sentinel, not the RESET encoding, and equals the probed pointer. -/
def hazardHit (ptr v : Nat) : Bool :=
  v != nullPtr && v != sentinelPtr && v != resetPtr && v == ptr

/-- hazard_domain::scan_for_hazard (domain.hpp lines 89-101): probe
every cell of the array for a live protection of ptr. -/
def scan_for_hazard (cells : List Nat) (ptr : Nat) : Bool :=
  cells.any (fun hazard => hazardHit ptr hazard)

/-- Loop body of hazard_domain::delete_hazards (domain.hpp lines
70-85).  The first list accumulates the entries already confirmed
hazarded and kept (positions before the iterator); the second list is
the active window between the iterator and the moving end.  A kept
entry advances the iterator; a non-hazarded entry is deleted and the
last element of the window is swapped into its slot.  Returns the
final buffer contents and the list of deleted pointers. -/
def delete_pass (cells : List Nat) : List Nat → List Nat → List Nat × List Nat
  | kept, [] => (kept, [])
  | kept, x :: xs =>
    if scan_for_hazard cells x then delete_pass cells (kept ++ [x]) xs
    else
      match xs with
      | [] => (kept, [x])
      | y :: ys =>
        let w := (y :: ys).getLast (List.cons_ne_nil y ys) :: (y :: ys).dropLast
        let r := delete_pass cells kept w
        (r.1, x :: r.2)
termination_by _kept rest => rest.length
decreasing_by
  · simp
  · simp [List.length_dropLast]

/-- hazard_domain::delete_hazards (domain.hpp lines 69-86): single
linear pass over the retire buffer; returns the surviving buffer and
the deleted pointers. -/
def delete_hazards (cells : List Nat) (buffer : List Nat) : List Nat × List Nat :=
  delete_pass cells [] buffer

/-- hazard_domain::retire (domain.hpp lines 59-66): append the pointer
to the thread's retire queue; when the queue length has reached twice
max_objects, run delete_hazards on it.  Returns the new queue and the
pointers deleted by the triggered pass (empty when no pass ran). -/
def retire (max_objects : Nat) (cells : List Nat) (retires : List Nat) (data : Nat) :
    List Nat × List Nat :=
  let retires2 := retires ++ [data]
  if 2 * max_objects ≤ retires2.length then delete_hazards cells retires2
  else (retires2, [])

/-- Sequence of retire calls on one thread's queue, collecting every
pointer deleted by triggered reclamation passes. -/
def retire_all (max_objects : Nat) (cells : List Nat) : List Nat → List Nat → List Nat × List Nat
  | buf, [] => (buf, [])
  | buf, p :: ps =>
    let r := retire max_objects cells buf p
    let rest := retire_all max_objects cells r.1 ps
    (rest.1, r.2 ++ rest.2)

/-- Destructor of hazard_domain::retire_buffer (domain.hpp lines
116-120): when the domain reference is set and the buffer is nonempty,
one final delete_hazards pass runs before the buffer is discarded.
Returns the surviving buffer contents and the deleted pointers. -/
def retire_buffer_dtor (has_domain : Bool) (cells : List Nat) (buffer : List Nat) :
    List Nat × List Nat :=
  if has_domain && !buffer.isEmpty then delete_hazards cells buffer
  else (buffer, [])

/-- Memory orderings of the std::atomic operations that the protection
protocol issues. -/
inductive MemOrd where
  | relaxed
  | acquire
  | release
  | acq_rel
  | seq_cst
deriving DecidableEq

/-- Ordering at least as strong as acquire on the load side. -/
def MemOrd.atLeastAcquire : MemOrd → Bool
  | .acquire => true
  | .acq_rel => true
  | .seq_cst => true
  | _ => false

/-- Atomic accesses performed by try_protect, in program order: stores
to the owned cell and reloads of the source atomic. -/
inductive AtomicEv where
  | store_cell (v : Nat) (o : MemOrd)
  | load_src (o : MemOrd)
deriving DecidableEq

/-- Outcome of one try_protect attempt: the returned flag, the value
left in the owned cell, the value left in the caller's candidate
reference, and the trace of atomic accesses issued. -/
structure TPResult where
  ok : Bool
  cellVal : Nat
  ptrOut : Nat
  events : List AtomicEv
deriving DecidableEq

/-- hazard_pointer::try_protect (hazard_pointer.hpp lines 99-112).
ptr is the candidate; reloaded is the value the acquire reload of the
source observes (in a concurrent run it may differ from the
candidate).  Line 102 publishes the candidate with seq_cst; line 104
reloads the source with acquire; on mismatch lines 109-110 store the
RESET encoding and hand the observed value back to the caller. -/
def try_protect (ptr : Nat) (reloaded : Nat) : TPResult :=
  let ev1 := [AtomicEv.store_cell ptr MemOrd.seq_cst, AtomicEv.load_src MemOrd.acquire]
  let current := reloaded
  if current = ptr then ⟨true, ptr, ptr, ev1⟩
  else ⟨false, resetPtr, current, ev1 ++ [AtomicEv.store_cell resetPtr MemOrd.release]⟩

/-- hazard_pointer::protect (hazard_pointer.hpp lines 84-97) in the
stable single-threaded case: the initial relaxed load of the source is
the candidate and the reload observes the same value, so the first
try_protect succeeds.  Returns the protected address and the value
left in the owned cell. -/
def protect (src : Nat) : Nat × Nat :=
  let ptr := src
  let r := try_protect ptr src
  (r.ptrOut, r.cellVal)

/-- Value stored by hazard_pointer::reset_protection() (hazard_pointer.hpp
line 116): the RESET encoding. -/
def reset_protection_val : Nat := resetPtr

/-- Value stored by hazard_pointer::reset_protection(T*) (hazard_pointer.hpp
line 121): the republished address itself. -/
def reset_protection_ptr_val (ptr : Nat) : Nat := ptr

/-- Handle state: which cell of the domain array the hazard_pointer
owns, if any (hazard_pointer.hpp line 134). -/
structure hazard_pointer where
  m_cell : Option Nat
deriving DecidableEq

/-- hazard_pointer::empty (hazard_pointer.hpp lines 75-82): true when
no cell is owned, or when the owned cell currently holds null or the
RESET encoding. -/
def hazard_pointer.empty (cells : List Nat) (hp : hazard_pointer) : Bool :=
  match hp.m_cell with
  | none => true
  | some i =>
    let ptr := cells.getD i nullPtr
    ptr == nullPtr || ptr == resetPtr

/-- Move constructor (hazard_pointer.hpp line 57): the destination
takes the source's cell and the source is left empty.  Returns the
pair (destination, moved-from source). -/
def hazard_pointer.move_ctor (src : hazard_pointer) : hazard_pointer × hazard_pointer :=
  (⟨src.m_cell⟩, ⟨none⟩)

/-- Move assignment between distinct handles (hazard_pointer.hpp lines
59-67): the destination first releases its own cell if it owns one,
then takes the source's cell, leaving the source empty.  Returns the
new destination, the moved-from source, and the updated cell array. -/
def hazard_pointer.move_assign (cells : List Nat) (dst src : hazard_pointer) :
    hazard_pointer × hazard_pointer × List Nat :=
  let cells2 :=
    match dst.m_cell with
    | some c => release_cell cells (some c)
    | none => cells
  (⟨src.m_cell⟩, ⟨none⟩, cells2)

/-- Destructor (hazard_pointer.hpp lines 69-73): a handle that owns a
cell releases it; an empty handle releases nothing. -/
def hazard_pointer.dtor (cells : List Nat) (hp : hazard_pointer) : List Nat :=
  match hp.m_cell with
  | some c => release_cell cells (some c)
  | none => cells

/-- Guard state (hazard_pointer.hpp lines 33-53): the address cached
at construction. -/
structure guard where
  m_ptr : Nat
deriving DecidableEq

/-- Guard construction (hazard_pointer.hpp lines 38-39): one protect
call against the source; the result is cached in m_ptr.  Returns the
guard and the value the protect call left in the handle's cell. -/
def guard.ctor (src : Nat) : guard × Nat :=
  let p := protect src
  (⟨p.1⟩, p.2)

/-- guard::get (hazard_pointer.hpp line 45): the cached address,
independent of any later mutation of the source. -/
def guard.get (g : guard) : Nat := g.m_ptr

/-- Guard destructor (hazard_pointer.hpp lines 41-43): value stored in
the handle's cell by the reset_protection call. -/
def guard.dtor_val : Nat := reset_protection_val

/-- RAII scope of a guard: construct over the source, run the body on
the cached address (the body may end in an exceptional exit, modelled
by Except.error), and run the destructor on every exit path.  Returns
the body outcome and the final value of the handle's cell. -/
def guard_scope {E A : Type} (src : Nat) (body : Nat → Except E A) :
    Except E A × Nat :=
  let c := guard.ctor src
  (body (guard.get c.1), guard.dtor_val)

theorem capture_sweep_eq_none (cells : List Nat) :
    ∀ i, (∀ c ∈ cells, c ≠ nullPtr) → capture_sweep i cells = none := by
  induction cells with
  | nil => intro i _; rfl
  | cons c cs ih =>
    intro i hall
    have hc : c ≠ nullPtr := hall c (by simp)
    have hrec := ih (i + 1) (fun x hx => hall x (by simp [hx]))
    simp [capture_sweep, hc, hrec]

theorem capture_sweep_none_forall (cells : List Nat) :
    ∀ i, capture_sweep i cells = none → ∀ c ∈ cells, c ≠ nullPtr := by
  induction cells with
  | nil => intro i _ c hc; cases hc
  | cons c cs ih =>
    intro i h x hx
    by_cases hc : c = nullPtr
    · exfalso; simp [capture_sweep, hc] at h
    · rcases List.mem_cons.mp hx with h1 | h1
      · subst h1; exact hc
      · cases hcs : capture_sweep (i + 1) cs with
        | some r => exfalso; simp [capture_sweep, hc, hcs] at h
        | none => exact ih (i + 1) hcs x h1

theorem capture_sweep_shift (cells : List Nat) :
    ∀ i, capture_sweep i cells =
      (capture_sweep 0 cells).map (fun r => (i + r.1, r.2)) := by
  induction cells with
  | nil => intro i; rfl
  | cons c cs ih =>
    intro i
    by_cases hc : c = nullPtr
    · simp [capture_sweep, hc]
    · cases h : capture_sweep 0 cs with
      | some r =>
        have h1 := ih (i + 1)
        have h2 := ih 1
        rw [h] at h1 h2
        obtain ⟨j, cs2⟩ := r
        simp [capture_sweep, hc, h1, h2]
        omega
      | none =>
        have h1 := ih (i + 1)
        have h2 := ih 1
        rw [h] at h1 h2
        simp [capture_sweep, hc, h1, h2]

theorem capture_cell_spec : ∀ (cells : List Nat) (j : Nat) (cells2 : List Nat),
    capture_cell cells = some (j, cells2) →
      j < cells.length ∧ cells[j]? = some nullPtr ∧
      (∀ m, m < j → cells[m]? ≠ some nullPtr) ∧ cells2 = cells.set j sentinelPtr := by
  intro cells
  induction cells with
  | nil => intro j cells2 h; cases h
  | cons c cs ih =>
    intro j cells2 h
    by_cases hc : c = nullPtr
    · have he : capture_cell (c :: cs) = some (0, sentinelPtr :: cs) := by
        simp [capture_cell, capture_sweep, hc]
      rw [he] at h
      injection h with h2
      injection h2 with hj hcells
      refine ⟨by simp [← hj], ?_, ?_, ?_⟩
      · simp [← hj, hc]
      · intro m hm; omega
      · simp [← hj, ← hcells]
    · have hstep : capture_cell (c :: cs) =
          (capture_cell cs).map (fun r => (1 + r.1, c :: r.2)) := by
        cases hcs : capture_cell cs with
        | some r =>
          have hsh := capture_sweep_shift cs 1
          rw [show capture_sweep 0 cs = capture_cell cs from rfl, hcs] at hsh
          obtain ⟨k, cs2'⟩ := r
          simp [capture_cell, capture_sweep, hc, hsh, hcs]
        | none =>
          have hsh := capture_sweep_shift cs 1
          rw [show capture_sweep 0 cs = capture_cell cs from rfl, hcs] at hsh
          simp [capture_cell, capture_sweep, hc, hsh, hcs]
      rw [hstep] at h
      cases hcs : capture_cell cs with
      | none => rw [hcs] at h; cases h
      | some r =>
        obtain ⟨k, cs2'⟩ := r
        rw [hcs] at h
        injection h with h2
        injection h2 with hj hcells
        obtain ⟨hk1, hk2, hk3, hk4⟩ := ih k cs2' hcs
        have hj' : j = k + 1 := by omega
        subst hj'
        refine ⟨by simp; omega, by simpa using hk2, ?_, ?_⟩
        · intro m hm
          cases m with
          | zero => simp; intro hcc; exact hc hcc
          | succ m' => simp; exact fun hmm => hk3 m' (by omega) (by simp [hmm])
        · rw [← hcells, hk4]; rfl

theorem capture_cell_at_free (rest : List Nat) :
    ∀ a, capture_cell (List.replicate a sentinelPtr ++ nullPtr :: rest) =
      some (a, List.replicate (a + 1) sentinelPtr ++ rest) := by
  intro a
  induction a with
  | zero => simp [capture_cell, capture_sweep, nullPtr]
  | succ n ihn =>
    have hs : (sentinelPtr : Nat) ≠ nullPtr := by decide
    have hsh := capture_sweep_shift
      (List.replicate n sentinelPtr ++ nullPtr :: rest) 1
    rw [show capture_sweep 0 (List.replicate n sentinelPtr ++ nullPtr :: rest) =
        capture_cell (List.replicate n sentinelPtr ++ nullPtr :: rest) from rfl, ihn] at hsh
    have hcons : List.replicate (n + 1) sentinelPtr ++ nullPtr :: rest =
        sentinelPtr :: (List.replicate n sentinelPtr ++ nullPtr :: rest) := rfl
    rw [hcons]
    simp [capture_cell, capture_sweep, hs, hsh]
    constructor
    · omega
    · rfl

theorem capture_n_fill : ∀ (m a : Nat),
    capture_n m (List.replicate a sentinelPtr ++ List.replicate m nullPtr) =
      some (List.replicate (a + m) sentinelPtr) := by
  intro m
  induction m with
  | zero => intro a; simp [capture_n]
  | succ n ihn =>
    intro a
    have hrep : List.replicate (n + 1) nullPtr = nullPtr :: List.replicate n nullPtr := rfl
    rw [hrep]
    have hfree := capture_cell_at_free (List.replicate n nullPtr) a
    simp [capture_n, hfree]
    have := ihn (a + 1)
    rw [show a + 1 + n = a + (n + 1) by omega] at this
    exact this

theorem capture_n_exhaust : ∀ (m a : Nat),
    capture_n (m + 1) (List.replicate a sentinelPtr ++ List.replicate m nullPtr) = none := by
  intro m
  induction m with
  | zero =>
    intro a
    have hnone : capture_cell (List.replicate a sentinelPtr ++ List.replicate 0 nullPtr) = none := by
      apply capture_sweep_eq_none
      intro c hcmem
      simp [List.mem_replicate] at hcmem
      obtain ⟨_, hcc⟩ := hcmem
      subst hcc
      decide
    simp only [List.replicate, List.append_nil] at hnone
    simp [capture_n, hnone]
  | succ n ihn =>
    intro a
    have hrep : List.replicate (n + 1) nullPtr = nullPtr :: List.replicate n nullPtr := rfl
    rw [hrep]
    have hfree := capture_cell_at_free (List.replicate n nullPtr) a
    simp [capture_n, hfree]
    exact ihn (a + 1)

/-- C2: capture_cell sweeps the cell array once in index order,
claiming the first FREE cell by the CAS to the RESERVED sentinel; a
full sweep without a FREE cell is the fatal capacity failure
(modelled as none).  With cardinality N, N captures from an all-free
array all succeed, and the (N + 1)-th capture fails. -/
theorem C2_capture_capacity :
    (∀ (cells : List Nat) (j : Nat) (cells2 : List Nat),
        capture_cell cells = some (j, cells2) →
          j < cells.length ∧ cells[j]? = some nullPtr ∧
          (∀ m, m < j → cells[m]? ≠ some nullPtr) ∧
          cells2 = cells.set j sentinelPtr) ∧
    (∀ cells : List Nat, capture_cell cells = none ↔ ∀ c ∈ cells, c ≠ nullPtr) ∧
    (∀ N : Nat, capture_n N (List.replicate N nullPtr) =
        some (List.replicate N sentinelPtr)) ∧
    (∀ N : Nat, capture_n (N + 1) (List.replicate N nullPtr) = none) := by
  refine ⟨capture_cell_spec, ?_, ?_, ?_⟩
  · intro cells
    exact ⟨fun h => capture_sweep_none_forall cells 0 h,
      fun h => capture_sweep_eq_none cells 0 h⟩
  · intro N
    have := capture_n_fill N 0
    simpa using this
  · intro N
    have := capture_n_exhaust N 0
    simpa using this

/-- Witness for C2 at concrete inputs: the capture on a two-cell array
whose first cell is taken claims index 1, and a one-cell domain
supports one capture but not two. -/
theorem C2_capture_capacity_witness :
    (1 < ([sentinelPtr, nullPtr] : List Nat).length ∧
      ([sentinelPtr, nullPtr] : List Nat)[1]? = some nullPtr ∧
      (∀ m, m < 1 → ([sentinelPtr, nullPtr] : List Nat)[m]? ≠ some nullPtr) ∧
      ([sentinelPtr, sentinelPtr] : List Nat) =
        ([sentinelPtr, nullPtr] : List Nat).set 1 sentinelPtr) ∧
    capture_n 1 (List.replicate 1 nullPtr) = some (List.replicate 1 sentinelPtr) ∧
    capture_n 2 (List.replicate 1 nullPtr) = none := by
  refine ⟨C2_capture_capacity.1 [sentinelPtr, nullPtr] 1 [sentinelPtr, sentinelPtr] (by decide),
    C2_capture_capacity.2.2.1 1, C2_capture_capacity.2.2.2 1⟩

theorem scan_for_hazard_iff (cells : List Nat) (p : Nat) :
    scan_for_hazard cells p = true ↔
      p ≠ nullPtr ∧ p ≠ sentinelPtr ∧ p ≠ resetPtr ∧ p ∈ cells := by
  simp only [scan_for_hazard, hazardHit, List.any_eq_true, Bool.and_eq_true,
    bne_iff_ne, beq_iff_eq, ne_eq]
  constructor
  · rintro ⟨v, hv, ⟨⟨⟨h1, h2⟩, h3⟩, h4⟩⟩
    subst h4
    exact ⟨h1, h2, h3, hv⟩
  · rintro ⟨h1, h2, h3, hm⟩
    exact ⟨p, hm, ⟨⟨⟨h1, h2⟩, h3⟩, rfl⟩⟩

theorem delete_pass_nil (cells kept : List Nat) : delete_pass cells kept [] = (kept, []) := by
  rw [delete_pass.eq_def]

theorem delete_pass_cons_pos (cells kept : List Nat) (x : Nat) (xs : List Nat)
    (hx : scan_for_hazard cells x = true) :
    delete_pass cells kept (x :: xs) = delete_pass cells (kept ++ [x]) xs := by
  rw [delete_pass.eq_def]
  simp [hx]

theorem delete_pass_cons_last (cells kept : List Nat) (x : Nat)
    (hx : scan_for_hazard cells x = false) :
    delete_pass cells kept [x] = (kept, [x]) := by
  rw [delete_pass.eq_def]
  simp [hx]

theorem delete_pass_cons_swap (cells kept : List Nat) (x y : Nat) (ys : List Nat)
    (hx : scan_for_hazard cells x = false) :
    delete_pass cells kept (x :: y :: ys) =
      ((delete_pass cells kept
          ((y :: ys).getLast (List.cons_ne_nil y ys) :: (y :: ys).dropLast)).1,
        x :: (delete_pass cells kept
          ((y :: ys).getLast (List.cons_ne_nil y ys) :: (y :: ys).dropLast)).2) := by
  rw [delete_pass.eq_def]
  simp [hx]

theorem delete_pass_spec (cells : List Nat) :
    ∀ (n : Nat) (rest : List Nat), rest.length ≤ n → ∀ kept : List Nat,
      ((delete_pass cells kept rest).1).Perm
        (kept ++ rest.filter (fun p => scan_for_hazard cells p)) ∧
      ((delete_pass cells kept rest).2).Perm
        (rest.filter (fun p => !scan_for_hazard cells p)) := by
  intro n
  induction n with
  | zero =>
    intro rest hlen kept
    have hnil : rest = [] := List.eq_nil_of_length_eq_zero (Nat.le_zero.mp hlen)
    subst hnil
    simp [delete_pass_nil]
  | succ n ihn =>
    intro rest hlen kept
    match rest with
    | [] => simp [delete_pass_nil]
    | x :: xs =>
      by_cases hx : scan_for_hazard cells x
      · have hrec := ihn xs (by simp at hlen; omega) (kept ++ [x])
        rw [delete_pass_cons_pos cells kept x xs hx]
        refine ⟨hrec.1.trans ?_, hrec.2.trans ?_⟩
        · rw [List.filter_cons_of_pos hx, List.append_assoc, List.singleton_append]
        · rw [List.filter_cons_of_neg (by simp [hx])]
      · have hx2 : scan_for_hazard cells x = false := by
          revert hx
          cases scan_for_hazard cells x <;> simp
        match xs with
        | [] =>
          rw [delete_pass_cons_last cells kept x hx2]
          constructor
          · show kept.Perm (kept ++ List.filter (fun p => scan_for_hazard cells p) [x])
            have hf : List.filter (fun p => scan_for_hazard cells p) [x] = [] := by
              simp [hx]
            rw [hf, List.append_nil]
          · show List.Perm [x] (List.filter (fun p => !scan_for_hazard cells p) [x])
            have hf : List.filter (fun p => !scan_for_hazard cells p) [x] = [x] := by
              simp [hx]
            rw [hf]
        | y :: ys =>
          have hsplit : (y :: ys).dropLast ++ [(y :: ys).getLast (List.cons_ne_nil y ys)] =
              y :: ys := List.dropLast_append_getLast _
          have hwperm :
              ((y :: ys).getLast (List.cons_ne_nil y ys) :: (y :: ys).dropLast).Perm (y :: ys) := by
            have h1 := List.perm_append_singleton
              ((y :: ys).getLast (List.cons_ne_nil y ys)) ((y :: ys).dropLast)
            rw [hsplit] at h1
            exact h1.symm
          have hwlen :
              ((y :: ys).getLast (List.cons_ne_nil y ys) :: (y :: ys).dropLast).length ≤ n := by
            have h2 : ((y :: ys).getLast (List.cons_ne_nil y ys) :: (y :: ys).dropLast).length
                = (y :: ys).length := hwperm.length_eq
            simp only [List.length_cons] at hlen h2 ⊢
            omega
          have hrec := ihn _ hwlen kept
          rw [delete_pass_cons_swap cells kept x y ys hx2]
          refine ⟨?_, ?_⟩
          · refine hrec.1.trans ?_
            rw [List.filter_cons_of_neg hx]
            exact (hwperm.filter _).append_left kept
          · rw [show List.filter (fun p => !scan_for_hazard cells p) (x :: y :: ys) =
                x :: List.filter (fun p => !scan_for_hazard cells p) (y :: ys) from by
              simp [List.filter_cons, hx]]
            exact (hrec.2.trans (hwperm.filter _)).cons x

theorem delete_hazards_spec (cells buffer : List Nat) :
    ((delete_hazards cells buffer).1).Perm
      (buffer.filter (fun p => scan_for_hazard cells p)) ∧
    ((delete_hazards cells buffer).2).Perm
      (buffer.filter (fun p => !scan_for_hazard cells p)) := by
  have h := delete_pass_spec cells buffer.length buffer le_rfl []
  simpa using h

/-- C4: delete_hazards performs one linear pass with unstable
swap-with-last compaction; a queued pointer survives exactly when some
cell currently holds its address in a live PROTECTING state (value not
null, not the RESERVED sentinel, not the RESET encoding), every other
entry is deleted, and after the pass the buffer holds precisely the
still-hazarded pointers (as a multiset; order is not preserved). -/
theorem C4_delete_hazards :
    (∀ (cells : List Nat) (p : Nat), scan_for_hazard cells p = true ↔
      p ≠ nullPtr ∧ p ≠ sentinelPtr ∧ p ≠ resetPtr ∧ p ∈ cells) ∧
    (∀ cells buffer : List Nat,
      ((delete_hazards cells buffer).1).Perm
        (buffer.filter (fun p => scan_for_hazard cells p)) ∧
      ((delete_hazards cells buffer).2).Perm
        (buffer.filter (fun p => !scan_for_hazard cells p))) :=
  ⟨scan_for_hazard_iff, delete_hazards_spec⟩

/-- Witness for C4: on a one-cell array protecting 5, the pass over
the queue keeps 5 and deletes 9. -/
theorem C4_delete_hazards_witness :
    scan_for_hazard [5] 5 = true ∧
    ((delete_hazards [5] [5, 9]).1).Perm
      ([5, 9].filter (fun p => scan_for_hazard [5] p)) ∧
    ((delete_hazards [5] [5, 9]).2).Perm
      ([5, 9].filter (fun p => !scan_for_hazard [5] p)) :=
  ⟨(C4_delete_hazards.1 [5] 5).mpr (by decide),
    (C4_delete_hazards.2 [5] [5, 9]).1, (C4_delete_hazards.2 [5] [5, 9]).2⟩

/-- C3: try_protect first publishes the candidate into the owned cell
with a sequentially consistent store, then reloads the source with
acquire ordering (at least acquire); it succeeds exactly when the
reload equals the candidate, and on failure stores the RESET encoding
into the cell and hands the freshly observed source value back through
the candidate reference. -/
theorem C3_try_protect :
    ∀ ptr reloaded : Nat,
      (try_protect ptr reloaded).events.take 2 =
        [AtomicEv.store_cell ptr MemOrd.seq_cst, AtomicEv.load_src MemOrd.acquire] ∧
      MemOrd.acquire.atLeastAcquire = true ∧
      ((try_protect ptr reloaded).ok = true ↔ reloaded = ptr) ∧
      ((try_protect ptr reloaded).ok = true →
        (try_protect ptr reloaded).cellVal = ptr ∧
        (try_protect ptr reloaded).ptrOut = ptr) ∧
      ((try_protect ptr reloaded).ok = false →
        (try_protect ptr reloaded).cellVal = resetPtr ∧
        (try_protect ptr reloaded).ptrOut = reloaded ∧
        (try_protect ptr reloaded).events =
          [AtomicEv.store_cell ptr MemOrd.seq_cst, AtomicEv.load_src MemOrd.acquire,
            AtomicEv.store_cell resetPtr MemOrd.release]) := by
  intro ptr reloaded
  by_cases h : reloaded = ptr <;> simp [try_protect, h, MemOrd.atLeastAcquire]

/-- Witness for C3: a failing attempt with candidate 5 against an
observed source value 7. -/
theorem C3_try_protect_witness :
    (try_protect 5 7).cellVal = resetPtr ∧ (try_protect 5 7).ptrOut = 7 ∧
    (try_protect 5 7).events =
      [AtomicEv.store_cell 5 MemOrd.seq_cst, AtomicEv.load_src MemOrd.acquire,
        AtomicEv.store_cell resetPtr MemOrd.release] :=
  (C3_try_protect 5 7).2.2.2.2 (by decide)

/-- C7: retire appends the pointer to the thread's retire queue and
runs a reclamation pass exactly when the queue length after the append
has reached twice the cell cardinality; below the threshold the queue
is only the append and nothing is deleted. -/
theorem C7_retire_threshold :
    ∀ (max_objects : Nat) (cells retires : List Nat) (data : Nat),
      (retires.length + 1 < 2 * max_objects →
        retire max_objects cells retires data = (retires ++ [data], [])) ∧
      (2 * max_objects ≤ retires.length + 1 →
        retire max_objects cells retires data =
          delete_hazards cells (retires ++ [data])) := by
  intro N cells retires data
  constructor
  · intro h
    simp only [retire]
    rw [if_neg (by simp; omega)]
  · intro h
    simp only [retire]
    rw [if_pos (by simp; omega)]

/-- Witness for C7: below the threshold (one retire with capacity 2)
the queue only grows; at the threshold (second retire with capacity 1)
the pass runs. -/
theorem C7_retire_threshold_witness :
    retire 2 [] [] 3 = ([3], []) ∧
    retire 1 [] [9] 3 = delete_hazards [] [9, 3] :=
  ⟨(C7_retire_threshold 2 [] [] 3).1 (by decide),
    (C7_retire_threshold 1 [] [9] 3).2 (by decide)⟩

theorem retire_all_below (N : Nat) (cells : List Nat) :
    ∀ (ps buf : List Nat), buf.length + ps.length < 2 * N →
      retire_all N cells buf ps = (buf ++ ps, []) := by
  intro ps
  induction ps with
  | nil => intro buf _; simp [retire_all]
  | cons p ps ih =>
    intro buf h
    simp only [List.length_cons] at h
    have hr : retire N cells buf p = (buf ++ [p], []) := by
      simp only [retire]
      rw [if_neg (by simp; omega)]
    have hrest := ih (buf ++ [p]) (by simp; omega)
    simp [retire_all, hr, hrest]

/-- C8: with the domain reference set, the retire-buffer destructor
runs one final delete_hazards pass, so after k below-threshold retires
and thread exit every queued pointer with no live hazard at flush time
is deleted. -/
theorem C8_thread_exit_flush :
    ∀ (N : Nat) (cells ptrs : List Nat), ptrs.length < 2 * N →
      retire_all N cells [] ptrs = (ptrs, []) ∧
      ((retire_buffer_dtor true cells ptrs).2).Perm
        (ptrs.filter (fun p => !scan_for_hazard cells p)) ∧
      (∀ p ∈ ptrs, scan_for_hazard cells p = false →
        p ∈ (retire_buffer_dtor true cells ptrs).2) := by
  intro N cells ptrs h
  have hperm : ((retire_buffer_dtor true cells ptrs).2).Perm
      (ptrs.filter (fun p => !scan_for_hazard cells p)) := by
    cases ptrs with
    | nil => simp [retire_buffer_dtor]
    | cons q qs =>
      rw [show retire_buffer_dtor true cells (q :: qs) = delete_hazards cells (q :: qs) from by
        simp [retire_buffer_dtor]]
      exact (delete_hazards_spec cells (q :: qs)).2
  refine ⟨by simpa using retire_all_below N cells ptrs [] (by simpa using h), hperm, ?_⟩
  intro p hp hscan
  exact hperm.mem_iff.mpr (List.mem_filter.mpr ⟨hp, by simp [hscan]⟩)

/-- Witness for C8: one retired pointer with no hazard, capacity 1;
the exit flush deletes it. -/
theorem C8_thread_exit_flush_witness :
    retire_all 1 [] [] [7] = ([7], []) ∧
    ((retire_buffer_dtor true [] [7]).2).Perm
      ([7].filter (fun p => !scan_for_hazard [] p)) ∧
    7 ∈ (retire_buffer_dtor true [] [7]).2 := by
  have h := C8_thread_exit_flush 1 [] [7] (by decide)
  exact ⟨h.1, h.2.1, h.2.2 7 (by decide) (by decide)⟩

/-- C9: moving a handle transfers the owned cell and empties the
source, so the moved-from destructor releases nothing; move assignment
first releases the destination's previously owned cell; destroying an
owning handle stores FREE into its cell and destroying an empty handle
changes nothing. -/
theorem C9_move_semantics :
    ∀ (cells : List Nat) (hp : hazard_pointer) (c : Nat),
      (hazard_pointer.move_ctor hp).1.m_cell = hp.m_cell ∧
      (hazard_pointer.move_ctor hp).2.m_cell = none ∧
      hazard_pointer.dtor cells (hazard_pointer.move_ctor hp).2 = cells ∧
      (∀ src : hazard_pointer,
        (hazard_pointer.move_assign cells hp src).1.m_cell = src.m_cell ∧
        (hazard_pointer.move_assign cells hp src).2.1.m_cell = none ∧
        (hp.m_cell = some c →
          (hazard_pointer.move_assign cells hp src).2.2 = cells.set c nullPtr) ∧
        (hp.m_cell = none →
          (hazard_pointer.move_assign cells hp src).2.2 = cells)) ∧
      (hp.m_cell = some c → hazard_pointer.dtor cells hp = cells.set c nullPtr) ∧
      (hp.m_cell = none → hazard_pointer.dtor cells hp = cells) := by
  intro cells hp c
  refine ⟨rfl, rfl, rfl, ?_, ?_, ?_⟩
  · intro src
    refine ⟨rfl, rfl, ?_, ?_⟩
    · intro h; simp [hazard_pointer.move_assign, h, release_cell]
    · intro h; simp [hazard_pointer.move_assign, h]
  · intro h; simp [hazard_pointer.dtor, h, release_cell]
  · intro h; simp [hazard_pointer.dtor, h]

/-- Witness for C9: destroying a handle owning cell 0 of a one-cell
array frees the cell; move assignment into it does the same. -/
theorem C9_move_semantics_witness :
    hazard_pointer.dtor [sentinelPtr] ⟨some 0⟩ = [nullPtr] ∧
    (hazard_pointer.move_assign [sentinelPtr] ⟨some 0⟩ ⟨none⟩).2.2 = [nullPtr] := by
  have h := C9_move_semantics [sentinelPtr] ⟨some 0⟩ 0
  exact ⟨h.2.2.2.2.1 rfl, (h.2.2.2.1 ⟨none⟩).2.2.1 rfl⟩

/-- C10: empty is true for a cell-less handle, and for an owning
handle exactly when the owned cell currently holds null or the RESET
encoding; a freshly captured cell (RESERVED) reports nonempty, and a
cell just reset by reset_protection reports empty although still
owned. -/
theorem C10_empty :
    ∀ (cells : List Nat) (i : Nat),
      hazard_pointer.empty cells ⟨none⟩ = true ∧
      (hazard_pointer.empty cells ⟨some i⟩ = true ↔
        cells.getD i nullPtr = nullPtr ∨ cells.getD i nullPtr = resetPtr) ∧
      (∀ cells2 : List Nat, capture_cell cells = some (i, cells2) →
        hazard_pointer.empty cells2 ⟨some i⟩ = false) ∧
      (i < cells.length →
        hazard_pointer.empty (cells.set i reset_protection_val) ⟨some i⟩ = true) := by
  intro cells i
  refine ⟨rfl, ?_, ?_, ?_⟩
  · simp [hazard_pointer.empty]
  · intro cells2 hcap
    obtain ⟨h1, _, _, h4⟩ := capture_cell_spec cells i cells2 hcap
    subst h4
    have hget2 : (cells.set i sentinelPtr)[i]? = some sentinelPtr :=
      List.getElem?_set_self (by simpa using h1)
    simp only [hazard_pointer.empty, List.getD_eq_getElem?_getD, hget2, Option.getD_some]
    decide
  · intro hlen
    have hget2 : (cells.set i reset_protection_val)[i]? = some reset_protection_val :=
      List.getElem?_set_self (by simpa using hlen)
    simp only [hazard_pointer.empty, List.getD_eq_getElem?_getD, hget2, Option.getD_some]
    decide

/-- Witness for C10: a captured one-cell domain is nonempty until the
reset, which makes the handle report empty while still owning cell 0. -/
theorem C10_empty_witness :
    hazard_pointer.empty [sentinelPtr] ⟨some 0⟩ = false ∧
    hazard_pointer.empty ([nullPtr].set 0 reset_protection_val) ⟨some 0⟩ = true := by
  have h := C10_empty [nullPtr] 0
  exact ⟨h.2.2.1 [sentinelPtr] (by decide), h.2.2.2 (by decide)⟩

/-- C6: a guard caches the single protect result at construction, the
accessors expose exactly that cached address independent of later
source mutation (the scope result depends only on the construction
value), the construction leaves the cell protecting that address, and
the destructor stores the RESET encoding on every exit path, normal or
exceptional. -/
theorem C6_guard :
    ∀ (src : Nat) (E A : Type) (body : Nat → Except E A),
      (guard.ctor src).1.m_ptr = src ∧
      (guard.ctor src).2 = src ∧
      guard.get (guard.ctor src).1 = src ∧
      guard_scope src body = (body src, resetPtr) ∧
      guard.dtor_val = resetPtr := by
  intro src E A body
  refine ⟨?_, ?_, ?_, ?_, rfl⟩ <;>
    simp [guard.ctor, guard.get, guard_scope, protect, try_protect,
      guard.dtor_val, reset_protection_val]

/-- C5 counterexample: with the source currently holding null, a
try_protect on an owned cell succeeds while storing the FREE encoding
into the cell, after which a capture sweep claims the still-owned
cell. -/
theorem C5_counterexample :
    (try_protect nullPtr nullPtr).ok = true ∧
    (try_protect nullPtr nullPtr).cellVal = nullPtr ∧
    capture_cell [(try_protect nullPtr nullPtr).cellVal] = some (0, [sentinelPtr]) := by
  decide

/-- C5 amended: the RESERVED and RESET encodings are distinct from
null and from each other and cannot equal the address of a real object
(of size at least 1 for RESERVED, at least 2 for RESET, with a
representable one-past-the-end pointer); and provided the protected
source never holds null, every operation on an owning handle leaves a
non-FREE value in the cell, so no concurrent capture sweep can claim
an owned cell. -/
theorem C5_owned_cell_not_free :
    sentinelPtr ≠ nullPtr ∧ resetPtr ≠ nullPtr ∧ sentinelPtr ≠ resetPtr ∧
    (∀ size p : Nat, 1 ≤ size → valid_obj_addr size p → p ≠ sentinelPtr) ∧
    (∀ size p : Nat, 2 ≤ size → valid_obj_addr size p → p ≠ resetPtr) ∧
    (∀ ptr reloaded : Nat, ptr ≠ nullPtr →
      (try_protect ptr reloaded).cellVal ≠ nullPtr) ∧
    reset_protection_val ≠ nullPtr ∧ sentinelPtr ≠ nullPtr ∧
    (∀ cells : List Nat, (∀ c ∈ cells, c ≠ nullPtr) → capture_cell cells = none) ∧
    (∀ (cells cells2 : List Nat) (j : Nat), capture_cell cells = some (j, cells2) →
      cells[j]? = some nullPtr) := by
  refine ⟨by decide, by decide, by decide, ?_, ?_, ?_, by decide, by decide, ?_, ?_⟩
  · intro size p h1 h2 heq
    subst heq
    norm_num [valid_obj_addr, sentinelPtr] at h2
    omega
  · intro size p h1 h2 heq
    subst heq
    norm_num [valid_obj_addr, resetPtr] at h2
    omega
  · intro ptr reloaded hp
    by_cases h : reloaded = ptr <;> simp [try_protect, h]
    · exact hp
    · decide
  · intro cells h
    exact capture_sweep_eq_none cells 0 h
  · intro cells cells2 j h
    exact (capture_cell_spec cells j cells2 h).2.1

/-- Witness for C5 amended: a plain address 8 is neither sentinel nor
reset; a non-null candidate leaves a non-null cell; a sweep over a
non-null array claims nothing. -/
theorem C5_owned_cell_not_free_witness :
    (8 : Nat) ≠ sentinelPtr ∧ (8 : Nat) ≠ resetPtr ∧
    (try_protect 5 7).cellVal ≠ nullPtr ∧ capture_cell [5] = none := by
  have h := C5_owned_cell_not_free
  exact ⟨h.2.2.2.1 1 8 (by decide) (by norm_num [valid_obj_addr]),
    h.2.2.2.2.1 2 8 (by decide) (by norm_num [valid_obj_addr]),
    h.2.2.2.2.2.1 5 7 (by decide),
    h.2.2.2.2.2.2.2.2.1 [5] (by decide)⟩

/-
Interleaved concurrent model for the safety claim.  The shared state
is the fixed cell array (as a function from cell index to stored
word), one shared source atomic, the retired-pointer sets and the
progress of one reclamation pass.  Each step is one atomic access of
the source code under sequentially consistent interleaving, which is
faithful here because every correctness-relevant access in the code
uses seq_cst (the try_protect publish, the scan loads) or release
writes whose effects the invariant does not depend on.  Readers are
identified with the cell index they own.  Addresses are abstract: the
writer only installs fresh addresses (no address reuse), modelling the
protocol assumption that a retired object is unlinked first and its
address not recycled while still queued.  reset_protection(T*), which
republishes a caller-chosen address under a caller-side safety
contract, is outside this claim and not modelled.
-/

/-- Word values that can denote a protected object: not the FREE
encoding and not one of the two reserved encodings. -/
def goodPtr (p : Nat) : Prop := p ≠ nullPtr ∧ p ≠ sentinelPtr ∧ p ≠ resetPtr

instance (p : Nat) : Decidable (goodPtr p) := by
  unfold goodPtr
  infer_instance

/-- Position of a reader inside the protect loop
(hazard_pointer.hpp lines 84-112): idle (owns a cell, nothing in
flight), loaded (holds a candidate read from the source, store not yet
issued), stored (candidate published in the cell, source not yet
reloaded), verified (reload matched the candidate: protection
established). -/
inductive RState where
  | idle
  | loaded (p : Nat)
  | stored (p : Nat)
  | verified (p : Nat)
deriving DecidableEq

/-- Candidate address carried by a reader state, if any. -/
def candOf : RState → Option Nat
  | RState.idle => none
  | RState.loaded p => some p
  | RState.stored p => some p
  | RState.verified p => some p

/-- Progress of one delete_hazards scan over the cell array for one
queued pointer: the probed pointer, the next cell index to load, and
whether a hazard has been observed so far. -/
structure ScanSt where
  target : Nat
  idx : Nat
  found : Bool
deriving DecidableEq

/-- Global state of the interleaved system. -/
structure Sys where
  cells : Nat → Nat
  owner : Nat → Option RState
  src : Nat
  limbo : List Nat
  queue : List Nat
  scan : Option ScanSt
  deleted : List Nat
  used : List Nat

/-- One interleaved atomic step of the system with cell cardinality N.
capture and release are the cell CAS/store of domain.hpp lines 44-45
and 55; load, storeCand, verifyOk, verifyFail and resetProt are the
individual atomic accesses of protect and try_protect
(hazard_pointer.hpp lines 85, 102, 104-106, 109-110, 116); unlink and
retireStep are the writer unlinking an object from the source and
handing it to retire (domain.hpp line 62); scanStart, scanRead,
scanKeep and scanDelete are delete_hazards checking one queued pointer
cell by cell (domain.hpp lines 73-82, 93-98). -/
inductive Step (N : Nat) : Sys → Sys → Prop where
  | capture (s : Sys) (r : Nat) (hr : r < N)
      (hc : s.cells r = nullPtr) (ho : s.owner r = none) :
      Step N s { s with
        cells := Function.update s.cells r sentinelPtr,
        owner := Function.update s.owner r (some RState.idle) }
  | release (s : Sys) (r : Nat) (st : RState) (hr : r < N)
      (ho : s.owner r = some st) :
      Step N s { s with
        cells := Function.update s.cells r nullPtr,
        owner := Function.update s.owner r none }
  | load (s : Sys) (r : Nat) (hr : r < N) (ho : s.owner r = some RState.idle) :
      Step N s { s with
        owner := Function.update s.owner r (some (RState.loaded s.src)) }
  | storeCand (s : Sys) (r p : Nat) (hr : r < N)
      (ho : s.owner r = some (RState.loaded p)) :
      Step N s { s with
        cells := Function.update s.cells r p,
        owner := Function.update s.owner r (some (RState.stored p)) }
  | verifyOk (s : Sys) (r p : Nat) (hr : r < N)
      (ho : s.owner r = some (RState.stored p)) (hsrc : s.src = p) :
      Step N s { s with
        owner := Function.update s.owner r (some (RState.verified p)) }
  | verifyFail (s : Sys) (r p : Nat) (hr : r < N)
      (ho : s.owner r = some (RState.stored p)) (hsrc : s.src ≠ p) :
      Step N s { s with
        cells := Function.update s.cells r resetPtr,
        owner := Function.update s.owner r (some (RState.loaded s.src)) }
  | resetProt (s : Sys) (r p : Nat) (hr : r < N)
      (ho : s.owner r = some (RState.verified p)) :
      Step N s { s with
        cells := Function.update s.cells r resetPtr,
        owner := Function.update s.owner r (some RState.idle) }
  | unlink (s : Sys) (q : Nat) (hq : goodPtr q) (hfresh : q ∉ s.used) :
      Step N s { s with src := q, limbo := s.src :: s.limbo, used := q :: s.used }
  | retireStep (s : Sys) (p : Nat) (hp : p ∈ s.limbo) :
      Step N s { s with limbo := s.limbo.erase p, queue := p :: s.queue }
  | scanStart (s : Sys) (p : Nat) (hp : p ∈ s.queue) (hs : s.scan = none) :
      Step N s { s with scan := some ⟨p, 0, false⟩ }
  | scanRead (s : Sys) (p i : Nat) (f : Bool)
      (hs : s.scan = some ⟨p, i, f⟩) (hi : i < N) :
      Step N s { s with scan := some ⟨p, i + 1, f || hazardHit p (s.cells i)⟩ }
  | scanKeep (s : Sys) (p : Nat) (hs : s.scan = some ⟨p, N, true⟩) :
      Step N s { s with scan := none }
  | scanDelete (s : Sys) (p : Nat) (hs : s.scan = some ⟨p, N, false⟩) :
      Step N s { s with
        queue := s.queue.erase p,
        deleted := p :: s.deleted,
        scan := none }

/-- Reachability under the interleaved step relation. -/
inductive Reach (N : Nat) (start : Sys) : Sys → Prop where
  | refl : Reach N start start
  | tail (s t : Sys) (h : Reach N start s) (hs : Step N s t) : Reach N start t

/-- Initial state: every cell FREE, no owners, the source holding one
initial object address, nothing retired. -/
def init_sys (a0 : Nat) : Sys :=
  { cells := fun _ => nullPtr
    owner := fun _ => none
    src := a0
    limbo := []
    queue := []
    scan := none
    deleted := []
    used := [a0] }

/-- Inductive invariant of the interleaved system. -/
structure Inv (N : Nat) (s : Sys) : Prop where
  src_used : s.src ∈ s.used
  src_good : goodPtr s.src
  limbo_used : ∀ p ∈ s.limbo, p ∈ s.used
  queue_used : ∀ p ∈ s.queue, p ∈ s.used
  deleted_used : ∀ p ∈ s.deleted, p ∈ s.used
  src_limbo : s.src ∉ s.limbo
  src_queue : s.src ∉ s.queue
  src_deleted : s.src ∉ s.deleted
  owner_bound : ∀ r, N ≤ r → s.owner r = none
  cells_none : ∀ r, s.owner r = none → s.cells r = nullPtr
  cells_idle : ∀ r, s.owner r = some RState.idle →
    s.cells r = sentinelPtr ∨ s.cells r = resetPtr
  cells_loaded : ∀ r p, s.owner r = some (RState.loaded p) →
    s.cells r = sentinelPtr ∨ s.cells r = resetPtr
  cells_stored : ∀ r p, s.owner r = some (RState.stored p) → s.cells r = p
  cells_verified : ∀ r p, s.owner r = some (RState.verified p) → s.cells r = p
  cand_good : ∀ r st, s.owner r = some st → ∀ p, candOf st = some p →
    goodPtr p ∧ p ∈ s.used
  verified_live : ∀ r p, s.owner r = some (RState.verified p) → p ∉ s.deleted
  scan_target : ∀ t, s.scan = some t → t.target ∈ s.queue ∧ t.idx ≤ N
  scan_miss : ∀ p i, s.scan = some ⟨p, i, false⟩ →
    ∀ r, r < i → s.owner r ≠ some (RState.verified p)

theorem hazardHit_self (p : Nat) (h : goodPtr p) : hazardHit p p = true := by
  obtain ⟨h1, h2, h3⟩ := h
  simp [hazardHit, h1, h2, h3]

theorem inv_init (N a0 : Nat) (ha : goodPtr a0) : Inv N (init_sys a0) := by
  refine ⟨?_, ha, ?_, ?_, ?_, ?_, ?_, ?_, ?_, ?_, ?_, ?_, ?_, ?_, ?_, ?_, ?_, ?_⟩ <;>
    simp [init_sys]

theorem inv_capture {N : Nat} {s : Sys} (hInv : Inv N s) (r : Nat) (hr : r < N)
    (hc : s.cells r = nullPtr) (ho : s.owner r = none) :
    Inv N { s with
      cells := Function.update s.cells r sentinelPtr,
      owner := Function.update s.owner r (some RState.idle) } := by
  refine ⟨hInv.src_used, hInv.src_good, hInv.limbo_used, hInv.queue_used,
    hInv.deleted_used, hInv.src_limbo, hInv.src_queue, hInv.src_deleted,
    ?_, ?_, ?_, ?_, ?_, ?_, ?_, ?_, hInv.scan_target, ?_⟩
  · intro r' hge
    dsimp only
    rw [Function.update_noteq (by omega)]
    exact hInv.owner_bound r' hge
  · intro r' h
    dsimp only at h ⊢
    rcases eq_or_ne r' r with rfl | hne
    · rw [Function.update_same] at h; simp at h
    · rw [Function.update_noteq hne] at h
      rw [Function.update_noteq hne]
      exact hInv.cells_none r' h
  · intro r' h
    dsimp only at h ⊢
    rcases eq_or_ne r' r with rfl | hne
    · rw [Function.update_same]; exact Or.inl rfl
    · rw [Function.update_noteq hne] at h
      rw [Function.update_noteq hne]
      exact hInv.cells_idle r' h
  · intro r' p h
    dsimp only at h ⊢
    rcases eq_or_ne r' r with rfl | hne
    · rw [Function.update_same] at h; simp at h
    · rw [Function.update_noteq hne] at h
      rw [Function.update_noteq hne]
      exact hInv.cells_loaded r' p h
  · intro r' p h
    dsimp only at h ⊢
    rcases eq_or_ne r' r with rfl | hne
    · rw [Function.update_same] at h; simp at h
    · rw [Function.update_noteq hne] at h
      rw [Function.update_noteq hne]
      exact hInv.cells_stored r' p h
  · intro r' p h
    dsimp only at h ⊢
    rcases eq_or_ne r' r with rfl | hne
    · rw [Function.update_same] at h; simp at h
    · rw [Function.update_noteq hne] at h
      rw [Function.update_noteq hne]
      exact hInv.cells_verified r' p h
  · intro r' st h p hp
    dsimp only at h
    rcases eq_or_ne r' r with rfl | hne
    · rw [Function.update_same] at h
      injection h with h2
      subst h2
      simp [candOf] at hp
    · rw [Function.update_noteq hne] at h
      exact hInv.cand_good r' st h p hp
  · intro r' p h
    dsimp only at h ⊢
    rcases eq_or_ne r' r with rfl | hne
    · rw [Function.update_same] at h; simp at h
    · rw [Function.update_noteq hne] at h
      exact hInv.verified_live r' p h
  · intro p i h r' hri
    dsimp only at h ⊢
    rcases eq_or_ne r' r with rfl | hne
    · rw [Function.update_same]; simp
    · rw [Function.update_noteq hne]
      exact hInv.scan_miss p i h r' hri

theorem inv_release {N : Nat} {s : Sys} (hInv : Inv N s) (r : Nat) (st : RState)
    (hr : r < N) (ho : s.owner r = some st) :
    Inv N { s with
      cells := Function.update s.cells r nullPtr,
      owner := Function.update s.owner r none } := by
  refine ⟨hInv.src_used, hInv.src_good, hInv.limbo_used, hInv.queue_used,
    hInv.deleted_used, hInv.src_limbo, hInv.src_queue, hInv.src_deleted,
    ?_, ?_, ?_, ?_, ?_, ?_, ?_, ?_, hInv.scan_target, ?_⟩
  · intro r' hge
    dsimp only
    rcases eq_or_ne r' r with rfl | hne
    · rw [Function.update_same]
    · rw [Function.update_noteq hne]
      exact hInv.owner_bound r' hge
  · intro r' h
    dsimp only at h ⊢
    rcases eq_or_ne r' r with rfl | hne
    · rw [Function.update_same]
    · rw [Function.update_noteq hne] at h
      rw [Function.update_noteq hne]
      exact hInv.cells_none r' h
  · intro r' h
    dsimp only at h ⊢
    rcases eq_or_ne r' r with rfl | hne
    · rw [Function.update_same] at h; simp at h
    · rw [Function.update_noteq hne] at h
      rw [Function.update_noteq hne]
      exact hInv.cells_idle r' h
  · intro r' p h
    dsimp only at h ⊢
    rcases eq_or_ne r' r with rfl | hne
    · rw [Function.update_same] at h; simp at h
    · rw [Function.update_noteq hne] at h
      rw [Function.update_noteq hne]
      exact hInv.cells_loaded r' p h
  · intro r' p h
    dsimp only at h ⊢
    rcases eq_or_ne r' r with rfl | hne
    · rw [Function.update_same] at h; simp at h
    · rw [Function.update_noteq hne] at h
      rw [Function.update_noteq hne]
      exact hInv.cells_stored r' p h
  · intro r' p h
    dsimp only at h ⊢
    rcases eq_or_ne r' r with rfl | hne
    · rw [Function.update_same] at h; simp at h
    · rw [Function.update_noteq hne] at h
      rw [Function.update_noteq hne]
      exact hInv.cells_verified r' p h
  · intro r' st' h p hp
    dsimp only at h
    rcases eq_or_ne r' r with rfl | hne
    · rw [Function.update_same] at h; simp at h
    · rw [Function.update_noteq hne] at h
      exact hInv.cand_good r' st' h p hp
  · intro r' p h
    dsimp only at h ⊢
    rcases eq_or_ne r' r with rfl | hne
    · rw [Function.update_same] at h; simp at h
    · rw [Function.update_noteq hne] at h
      exact hInv.verified_live r' p h
  · intro p i h r' hri
    dsimp only at h ⊢
    rcases eq_or_ne r' r with rfl | hne
    · rw [Function.update_same]; simp
    · rw [Function.update_noteq hne]
      exact hInv.scan_miss p i h r' hri

theorem inv_load {N : Nat} {s : Sys} (hInv : Inv N s) (r : Nat) (hr : r < N)
    (ho : s.owner r = some RState.idle) :
    Inv N { s with
      owner := Function.update s.owner r (some (RState.loaded s.src)) } := by
  refine ⟨hInv.src_used, hInv.src_good, hInv.limbo_used, hInv.queue_used,
    hInv.deleted_used, hInv.src_limbo, hInv.src_queue, hInv.src_deleted,
    ?_, ?_, ?_, ?_, ?_, ?_, ?_, ?_, hInv.scan_target, ?_⟩
  · intro r' hge
    dsimp only
    rw [Function.update_noteq (by omega)]
    exact hInv.owner_bound r' hge
  · intro r' h
    dsimp only at h ⊢
    rcases eq_or_ne r' r with rfl | hne
    · rw [Function.update_same] at h; simp at h
    · rw [Function.update_noteq hne] at h
      exact hInv.cells_none r' h
  · intro r' h
    dsimp only at h ⊢
    rcases eq_or_ne r' r with rfl | hne
    · rw [Function.update_same] at h; simp at h
    · rw [Function.update_noteq hne] at h
      exact hInv.cells_idle r' h
  · intro r' p h
    dsimp only at h ⊢
    rcases eq_or_ne r' r with rfl | hne
    · exact hInv.cells_idle _ ho
    · rw [Function.update_noteq hne] at h
      exact hInv.cells_loaded r' p h
  · intro r' p h
    dsimp only at h ⊢
    rcases eq_or_ne r' r with rfl | hne
    · rw [Function.update_same] at h; simp at h
    · rw [Function.update_noteq hne] at h
      exact hInv.cells_stored r' p h
  · intro r' p h
    dsimp only at h ⊢
    rcases eq_or_ne r' r with rfl | hne
    · rw [Function.update_same] at h; simp at h
    · rw [Function.update_noteq hne] at h
      exact hInv.cells_verified r' p h
  · intro r' st h p hp
    dsimp only at h
    rcases eq_or_ne r' r with rfl | hne
    · rw [Function.update_same] at h
      injection h with h2
      subst h2
      simp [candOf] at hp
      subst hp
      exact ⟨hInv.src_good, hInv.src_used⟩
    · rw [Function.update_noteq hne] at h
      exact hInv.cand_good r' st h p hp
  · intro r' p h
    dsimp only at h ⊢
    rcases eq_or_ne r' r with rfl | hne
    · rw [Function.update_same] at h; simp at h
    · rw [Function.update_noteq hne] at h
      exact hInv.verified_live r' p h
  · intro p i h r' hri
    dsimp only at h ⊢
    rcases eq_or_ne r' r with rfl | hne
    · rw [Function.update_same]; simp
    · rw [Function.update_noteq hne]
      exact hInv.scan_miss p i h r' hri

theorem inv_storeCand {N : Nat} {s : Sys} (hInv : Inv N s) (r p : Nat) (hr : r < N)
    (ho : s.owner r = some (RState.loaded p)) :
    Inv N { s with
      cells := Function.update s.cells r p,
      owner := Function.update s.owner r (some (RState.stored p)) } := by
  refine ⟨hInv.src_used, hInv.src_good, hInv.limbo_used, hInv.queue_used,
    hInv.deleted_used, hInv.src_limbo, hInv.src_queue, hInv.src_deleted,
    ?_, ?_, ?_, ?_, ?_, ?_, ?_, ?_, hInv.scan_target, ?_⟩
  · intro r' hge
    dsimp only
    rw [Function.update_noteq (by omega)]
    exact hInv.owner_bound r' hge
  · intro r' h
    dsimp only at h ⊢
    rcases eq_or_ne r' r with rfl | hne
    · rw [Function.update_same] at h; simp at h
    · rw [Function.update_noteq hne] at h
      rw [Function.update_noteq hne]
      exact hInv.cells_none r' h
  · intro r' h
    dsimp only at h ⊢
    rcases eq_or_ne r' r with rfl | hne
    · rw [Function.update_same] at h; simp at h
    · rw [Function.update_noteq hne] at h
      rw [Function.update_noteq hne]
      exact hInv.cells_idle r' h
  · intro r' p0 h
    dsimp only at h ⊢
    rcases eq_or_ne r' r with rfl | hne
    · rw [Function.update_same] at h; simp at h
    · rw [Function.update_noteq hne] at h
      rw [Function.update_noteq hne]
      exact hInv.cells_loaded r' p0 h
  · intro r' p0 h
    dsimp only at h ⊢
    rcases eq_or_ne r' r with rfl | hne
    · rw [Function.update_same] at h
      injection h with h2
      injection h2 with h3
      subst h3
      rw [Function.update_same]
    · rw [Function.update_noteq hne] at h
      rw [Function.update_noteq hne]
      exact hInv.cells_stored r' p0 h
  · intro r' p0 h
    dsimp only at h ⊢
    rcases eq_or_ne r' r with rfl | hne
    · rw [Function.update_same] at h; simp at h
    · rw [Function.update_noteq hne] at h
      rw [Function.update_noteq hne]
      exact hInv.cells_verified r' p0 h
  · intro r' st h p0 hp
    dsimp only at h
    rcases eq_or_ne r' r with rfl | hne
    · rw [Function.update_same] at h
      injection h with h2
      subst h2
      simp [candOf] at hp
      subst hp
      exact hInv.cand_good _ (RState.loaded p) ho p rfl
    · rw [Function.update_noteq hne] at h
      exact hInv.cand_good r' st h p0 hp
  · intro r' p0 h
    dsimp only at h ⊢
    rcases eq_or_ne r' r with rfl | hne
    · rw [Function.update_same] at h; simp at h
    · rw [Function.update_noteq hne] at h
      exact hInv.verified_live r' p0 h
  · intro q i h r' hri
    dsimp only at h ⊢
    rcases eq_or_ne r' r with rfl | hne
    · rw [Function.update_same]; simp
    · rw [Function.update_noteq hne]
      exact hInv.scan_miss q i h r' hri

theorem inv_verifyOk {N : Nat} {s : Sys} (hInv : Inv N s) (r p : Nat) (hr : r < N)
    (ho : s.owner r = some (RState.stored p)) (hsrc : s.src = p) :
    Inv N { s with
      owner := Function.update s.owner r (some (RState.verified p)) } := by
  refine ⟨hInv.src_used, hInv.src_good, hInv.limbo_used, hInv.queue_used,
    hInv.deleted_used, hInv.src_limbo, hInv.src_queue, hInv.src_deleted,
    ?_, ?_, ?_, ?_, ?_, ?_, ?_, ?_, hInv.scan_target, ?_⟩
  · intro r' hge
    dsimp only
    rw [Function.update_noteq (by omega)]
    exact hInv.owner_bound r' hge
  · intro r' h
    dsimp only at h ⊢
    rcases eq_or_ne r' r with rfl | hne
    · rw [Function.update_same] at h; simp at h
    · rw [Function.update_noteq hne] at h
      exact hInv.cells_none r' h
  · intro r' h
    dsimp only at h ⊢
    rcases eq_or_ne r' r with rfl | hne
    · rw [Function.update_same] at h; simp at h
    · rw [Function.update_noteq hne] at h
      exact hInv.cells_idle r' h
  · intro r' p0 h
    dsimp only at h ⊢
    rcases eq_or_ne r' r with rfl | hne
    · rw [Function.update_same] at h; simp at h
    · rw [Function.update_noteq hne] at h
      exact hInv.cells_loaded r' p0 h
  · intro r' p0 h
    dsimp only at h ⊢
    rcases eq_or_ne r' r with rfl | hne
    · rw [Function.update_same] at h; simp at h
    · rw [Function.update_noteq hne] at h
      exact hInv.cells_stored r' p0 h
  · intro r' p0 h
    dsimp only at h ⊢
    rcases eq_or_ne r' r with rfl | hne
    · rw [Function.update_same] at h
      injection h with h2
      injection h2 with h3
      subst h3
      exact hInv.cells_stored _ p ho
    · rw [Function.update_noteq hne] at h
      exact hInv.cells_verified r' p0 h
  · intro r' st h p0 hp
    dsimp only at h
    rcases eq_or_ne r' r with rfl | hne
    · rw [Function.update_same] at h
      injection h with h2
      subst h2
      simp [candOf] at hp
      subst hp
      exact hInv.cand_good _ (RState.stored p) ho p rfl
    · rw [Function.update_noteq hne] at h
      exact hInv.cand_good r' st h p0 hp
  · intro r' p0 h
    dsimp only at h ⊢
    rcases eq_or_ne r' r with rfl | hne
    · rw [Function.update_same] at h
      injection h with h2
      injection h2 with h3
      subst h3
      have hs2 := hInv.src_deleted
      rw [hsrc] at hs2
      exact hs2
    · rw [Function.update_noteq hne] at h
      exact hInv.verified_live r' p0 h
  · intro q i h r' hri
    dsimp only at h ⊢
    rcases eq_or_ne r' r with rfl | hne
    · rw [Function.update_same]
      intro hcontra
      injection hcontra with h2
      injection h2 with h3
      subst h3
      have hq := (hInv.scan_target ⟨p, i, false⟩ h).1
      have hs2 := hInv.src_queue
      rw [hsrc] at hs2
      exact hs2 hq
    · rw [Function.update_noteq hne]
      exact hInv.scan_miss q i h r' hri

theorem inv_verifyFail {N : Nat} {s : Sys} (hInv : Inv N s) (r p : Nat) (hr : r < N)
    (ho : s.owner r = some (RState.stored p)) (_hsrc : s.src ≠ p) :
    Inv N { s with
      cells := Function.update s.cells r resetPtr,
      owner := Function.update s.owner r (some (RState.loaded s.src)) } := by
  refine ⟨hInv.src_used, hInv.src_good, hInv.limbo_used, hInv.queue_used,
    hInv.deleted_used, hInv.src_limbo, hInv.src_queue, hInv.src_deleted,
    ?_, ?_, ?_, ?_, ?_, ?_, ?_, ?_, hInv.scan_target, ?_⟩
  · intro r' hge
    dsimp only
    rw [Function.update_noteq (by omega)]
    exact hInv.owner_bound r' hge
  · intro r' h
    dsimp only at h ⊢
    rcases eq_or_ne r' r with rfl | hne
    · rw [Function.update_same] at h; simp at h
    · rw [Function.update_noteq hne] at h
      rw [Function.update_noteq hne]
      exact hInv.cells_none r' h
  · intro r' h
    dsimp only at h ⊢
    rcases eq_or_ne r' r with rfl | hne
    · rw [Function.update_same] at h; simp at h
    · rw [Function.update_noteq hne] at h
      rw [Function.update_noteq hne]
      exact hInv.cells_idle r' h
  · intro r' p0 h
    dsimp only at h ⊢
    rcases eq_or_ne r' r with rfl | hne
    · rw [Function.update_same]; exact Or.inr rfl
    · rw [Function.update_noteq hne] at h
      rw [Function.update_noteq hne]
      exact hInv.cells_loaded r' p0 h
  · intro r' p0 h
    dsimp only at h ⊢
    rcases eq_or_ne r' r with rfl | hne
    · rw [Function.update_same] at h; simp at h
    · rw [Function.update_noteq hne] at h
      rw [Function.update_noteq hne]
      exact hInv.cells_stored r' p0 h
  · intro r' p0 h
    dsimp only at h ⊢
    rcases eq_or_ne r' r with rfl | hne
    · rw [Function.update_same] at h; simp at h
    · rw [Function.update_noteq hne] at h
      rw [Function.update_noteq hne]
      exact hInv.cells_verified r' p0 h
  · intro r' st h p0 hp
    dsimp only at h
    rcases eq_or_ne r' r with rfl | hne
    · rw [Function.update_same] at h
      injection h with h2
      subst h2
      simp [candOf] at hp
      subst hp
      exact ⟨hInv.src_good, hInv.src_used⟩
    · rw [Function.update_noteq hne] at h
      exact hInv.cand_good r' st h p0 hp
  · intro r' p0 h
    dsimp only at h ⊢
    rcases eq_or_ne r' r with rfl | hne
    · rw [Function.update_same] at h; simp at h
    · rw [Function.update_noteq hne] at h
      exact hInv.verified_live r' p0 h
  · intro q i h r' hri
    dsimp only at h ⊢
    rcases eq_or_ne r' r with rfl | hne
    · rw [Function.update_same]; simp
    · rw [Function.update_noteq hne]
      exact hInv.scan_miss q i h r' hri

theorem inv_resetProt {N : Nat} {s : Sys} (hInv : Inv N s) (r p : Nat) (hr : r < N)
    (ho : s.owner r = some (RState.verified p)) :
    Inv N { s with
      cells := Function.update s.cells r resetPtr,
      owner := Function.update s.owner r (some RState.idle) } := by
  refine ⟨hInv.src_used, hInv.src_good, hInv.limbo_used, hInv.queue_used,
    hInv.deleted_used, hInv.src_limbo, hInv.src_queue, hInv.src_deleted,
    ?_, ?_, ?_, ?_, ?_, ?_, ?_, ?_, hInv.scan_target, ?_⟩
  · intro r' hge
    dsimp only
    rw [Function.update_noteq (by omega)]
    exact hInv.owner_bound r' hge
  · intro r' h
    dsimp only at h ⊢
    rcases eq_or_ne r' r with rfl | hne
    · rw [Function.update_same] at h; simp at h
    · rw [Function.update_noteq hne] at h
      rw [Function.update_noteq hne]
      exact hInv.cells_none r' h
  · intro r' h
    dsimp only at h ⊢
    rcases eq_or_ne r' r with rfl | hne
    · rw [Function.update_same]; exact Or.inr rfl
    · rw [Function.update_noteq hne] at h
      rw [Function.update_noteq hne]
      exact hInv.cells_idle r' h
  · intro r' p0 h
    dsimp only at h ⊢
    rcases eq_or_ne r' r with rfl | hne
    · rw [Function.update_same] at h; simp at h
    · rw [Function.update_noteq hne] at h
      rw [Function.update_noteq hne]
      exact hInv.cells_loaded r' p0 h
  · intro r' p0 h
    dsimp only at h ⊢
    rcases eq_or_ne r' r with rfl | hne
    · rw [Function.update_same] at h; simp at h
    · rw [Function.update_noteq hne] at h
      rw [Function.update_noteq hne]
      exact hInv.cells_stored r' p0 h
  · intro r' p0 h
    dsimp only at h ⊢
    rcases eq_or_ne r' r with rfl | hne
    · rw [Function.update_same] at h; simp at h
    · rw [Function.update_noteq hne] at h
      rw [Function.update_noteq hne]
      exact hInv.cells_verified r' p0 h
  · intro r' st h p0 hp
    dsimp only at h
    rcases eq_or_ne r' r with rfl | hne
    · rw [Function.update_same] at h
      injection h with h2
      subst h2
      simp [candOf] at hp
    · rw [Function.update_noteq hne] at h
      exact hInv.cand_good r' st h p0 hp
  · intro r' p0 h
    dsimp only at h ⊢
    rcases eq_or_ne r' r with rfl | hne
    · rw [Function.update_same] at h; simp at h
    · rw [Function.update_noteq hne] at h
      exact hInv.verified_live r' p0 h
  · intro q i h r' hri
    dsimp only at h ⊢
    rcases eq_or_ne r' r with rfl | hne
    · rw [Function.update_same]; simp
    · rw [Function.update_noteq hne]
      exact hInv.scan_miss q i h r' hri

theorem inv_unlink {N : Nat} {s : Sys} (hInv : Inv N s) (q : Nat)
    (hq : goodPtr q) (hfresh : q ∉ s.used) :
    Inv N { s with src := q, limbo := s.src :: s.limbo, used := q :: s.used } := by
  refine ⟨?_, hq, ?_, ?_, ?_, ?_, ?_, ?_, hInv.owner_bound, hInv.cells_none,
    hInv.cells_idle, hInv.cells_loaded, hInv.cells_stored, hInv.cells_verified,
    ?_, hInv.verified_live, hInv.scan_target, hInv.scan_miss⟩
  · simp
  · intro p hp
    dsimp only at hp ⊢
    rcases List.mem_cons.mp hp with h1 | h1
    · rw [h1]; exact List.mem_cons_of_mem _ hInv.src_used
    · exact List.mem_cons_of_mem _ (hInv.limbo_used p h1)
  · intro p hp
    exact List.mem_cons_of_mem _ (hInv.queue_used p hp)
  · intro p hp
    exact List.mem_cons_of_mem _ (hInv.deleted_used p hp)
  · dsimp only
    intro hmem
    rcases List.mem_cons.mp hmem with h1 | h1
    · exact hfresh (by rw [h1]; exact hInv.src_used)
    · exact hfresh (hInv.limbo_used q h1)
  · dsimp only
    intro hmem
    exact hfresh (hInv.queue_used q hmem)
  · dsimp only
    intro hmem
    exact hfresh (hInv.deleted_used q hmem)
  · intro r st h p hp
    obtain ⟨hg, hu⟩ := hInv.cand_good r st h p hp
    exact ⟨hg, List.mem_cons_of_mem _ hu⟩

theorem inv_retire {N : Nat} {s : Sys} (hInv : Inv N s) (p : Nat) (hp : p ∈ s.limbo) :
    Inv N { s with limbo := s.limbo.erase p, queue := p :: s.queue } := by
  refine ⟨hInv.src_used, hInv.src_good, ?_, ?_, hInv.deleted_used, ?_, ?_,
    hInv.src_deleted, hInv.owner_bound, hInv.cells_none, hInv.cells_idle,
    hInv.cells_loaded, hInv.cells_stored, hInv.cells_verified, hInv.cand_good,
    hInv.verified_live, ?_, hInv.scan_miss⟩
  · intro x hx
    dsimp only at hx
    exact hInv.limbo_used x (List.mem_of_mem_erase hx)
  · intro x hx
    dsimp only at hx
    rcases List.mem_cons.mp hx with h1 | h1
    · rw [h1]; exact hInv.limbo_used p hp
    · exact hInv.queue_used x h1
  · dsimp only
    intro hmem
    exact hInv.src_limbo (List.mem_of_mem_erase hmem)
  · dsimp only
    intro hmem
    rcases List.mem_cons.mp hmem with h1 | h1
    · exact hInv.src_limbo (by rw [h1]; exact hp)
    · exact hInv.src_queue h1
  · intro t ht
    dsimp only at ht
    obtain ⟨h1, h2⟩ := hInv.scan_target t ht
    exact ⟨List.mem_cons_of_mem _ h1, h2⟩

theorem inv_scanStart {N : Nat} {s : Sys} (hInv : Inv N s) (p : Nat)
    (hp : p ∈ s.queue) (_hs : s.scan = none) :
    Inv N { s with scan := some ⟨p, 0, false⟩ } := by
  refine ⟨hInv.src_used, hInv.src_good, hInv.limbo_used, hInv.queue_used,
    hInv.deleted_used, hInv.src_limbo, hInv.src_queue, hInv.src_deleted,
    hInv.owner_bound, hInv.cells_none, hInv.cells_idle, hInv.cells_loaded,
    hInv.cells_stored, hInv.cells_verified, hInv.cand_good, hInv.verified_live,
    ?_, ?_⟩
  · intro t ht
    dsimp only at ht
    injection ht with h2
    subst h2
    exact ⟨hp, Nat.zero_le N⟩
  · intro q i h r hri
    dsimp only at h
    injection h with h2
    injection h2 with ha hb hc
    omega

theorem inv_scanRead {N : Nat} {s : Sys} (hInv : Inv N s) (p i : Nat) (f : Bool)
    (hs : s.scan = some ⟨p, i, f⟩) (hi : i < N) :
    Inv N { s with scan := some ⟨p, i + 1, f || hazardHit p (s.cells i)⟩ } := by
  refine ⟨hInv.src_used, hInv.src_good, hInv.limbo_used, hInv.queue_used,
    hInv.deleted_used, hInv.src_limbo, hInv.src_queue, hInv.src_deleted,
    hInv.owner_bound, hInv.cells_none, hInv.cells_idle, hInv.cells_loaded,
    hInv.cells_stored, hInv.cells_verified, hInv.cand_good, hInv.verified_live,
    ?_, ?_⟩
  · intro t ht
    dsimp only at ht
    injection ht with h2
    subst h2
    refine ⟨(hInv.scan_target ⟨p, i, f⟩ hs).1, ?_⟩
    dsimp only
    omega
  · intro q i0 h r hri
    dsimp only at h ⊢
    injection h with h2
    injection h2 with ha hb hc
    subst ha
    subst hb
    have hf1 : f = false := by
      cases f
      · rfl
      · simp at hc
    have hf2 : hazardHit p (s.cells i) = false := by
      cases hh : hazardHit p (s.cells i)
      · rfl
      · rw [hh] at hc
        rw [hf1] at hc
        simp at hc
    rw [hf1] at hs
    rcases Nat.lt_succ_iff_lt_or_eq.mp hri with hlt | heq
    · exact hInv.scan_miss p i hs r hlt
    · subst heq
      intro hcontra
      have hcell := hInv.cells_verified r p hcontra
      have hgood := (hInv.cand_good r (RState.verified p) hcontra p rfl).1
      have hhit := hazardHit_self p hgood
      rw [hcell] at hf2
      rw [hf2] at hhit
      simp at hhit

theorem inv_scanKeep {N : Nat} {s : Sys} (hInv : Inv N s) (p : Nat)
    (_hs : s.scan = some ⟨p, N, true⟩) :
    Inv N { s with scan := none } := by
  refine ⟨hInv.src_used, hInv.src_good, hInv.limbo_used, hInv.queue_used,
    hInv.deleted_used, hInv.src_limbo, hInv.src_queue, hInv.src_deleted,
    hInv.owner_bound, hInv.cells_none, hInv.cells_idle, hInv.cells_loaded,
    hInv.cells_stored, hInv.cells_verified, hInv.cand_good, hInv.verified_live,
    ?_, ?_⟩
  · intro t ht
    dsimp only at ht
    simp at ht
  · intro q i h r hri
    dsimp only at h
    simp at h

theorem inv_scanDelete {N : Nat} {s : Sys} (hInv : Inv N s) (p : Nat)
    (hs : s.scan = some ⟨p, N, false⟩) :
    Inv N { s with
      queue := s.queue.erase p,
      deleted := p :: s.deleted,
      scan := none } := by
  have hpq : p ∈ s.queue := (hInv.scan_target ⟨p, N, false⟩ hs).1
  refine ⟨hInv.src_used, hInv.src_good, hInv.limbo_used, ?_, ?_, hInv.src_limbo,
    ?_, ?_, hInv.owner_bound, hInv.cells_none, hInv.cells_idle,
    hInv.cells_loaded, hInv.cells_stored, hInv.cells_verified, hInv.cand_good,
    ?_, ?_, ?_⟩
  · intro x hx
    dsimp only at hx
    exact hInv.queue_used x (List.mem_of_mem_erase hx)
  · intro x hx
    dsimp only at hx
    rcases List.mem_cons.mp hx with h1 | h1
    · rw [h1]; exact hInv.queue_used p hpq
    · exact hInv.deleted_used x h1
  · dsimp only
    intro hmem
    exact hInv.src_queue (List.mem_of_mem_erase hmem)
  · dsimp only
    intro hmem
    rcases List.mem_cons.mp hmem with h1 | h1
    · exact hInv.src_queue (by rw [h1]; exact hpq)
    · exact hInv.src_deleted h1
  · intro r q h
    dsimp only at h ⊢
    intro hmem
    rcases List.mem_cons.mp hmem with h1 | h1
    · have hrN : r < N := by
        by_contra hge
        have hnone := hInv.owner_bound r (by omega)
        rw [hnone] at h
        cases h
      rw [h1] at h
      exact hInv.scan_miss p N hs r hrN h
    · exact hInv.verified_live r q h h1
  · intro t ht
    dsimp only at ht
    simp at ht
  · intro q i h r hri
    dsimp only at h
    simp at h

theorem inv_step {N : Nat} {s t : Sys} (hInv : Inv N s) (hstep : Step N s t) :
    Inv N t := by
  cases hstep with
  | capture r hr hc ho => exact inv_capture hInv r hr hc ho
  | release r st hr ho => exact inv_release hInv r st hr ho
  | load r hr ho => exact inv_load hInv r hr ho
  | storeCand r p hr ho => exact inv_storeCand hInv r p hr ho
  | verifyOk r p hr ho hsrc => exact inv_verifyOk hInv r p hr ho hsrc
  | verifyFail r p hr ho hsrc => exact inv_verifyFail hInv r p hr ho hsrc
  | resetProt r p hr ho => exact inv_resetProt hInv r p hr ho
  | unlink q hq hfresh => exact inv_unlink hInv q hq hfresh
  | retireStep p hp => exact inv_retire hInv p hp
  | scanStart p hp hs => exact inv_scanStart hInv p hp hs
  | scanRead p i f hs hi => exact inv_scanRead hInv p i f hs hi
  | scanKeep p hs => exact inv_scanKeep hInv p hs
  | scanDelete p hs => exact inv_scanDelete hInv p hs

theorem reach_inv {N a0 : Nat} {s : Sys} (ha : goodPtr a0)
    (h : Reach N (init_sys a0) s) : Inv N s := by
  induction h with
  | refl => exact inv_init N a0 ha
  | tail s t hreach hstep ih => exact inv_step ih hstep

/-
Counterexample trace for the literal safety claim, with one cell
(N = 1), initial object address 8 and replacement address 16:
capture cell 0; the reader loads candidate 8 from the source; the
writer unlinks 8 (source becomes 16) and retires it; the reclaimer
scans cell 0 (still RESERVED, no hazard); the reader then publishes 8
into its cell; the reclaimer deletes 8.  At the deletion the live
handle's cell holds exactly 8.
-/

def cx0 : Sys := init_sys 8

def cx1 : Sys := { cx0 with
  cells := Function.update cx0.cells 0 sentinelPtr,
  owner := Function.update cx0.owner 0 (some RState.idle) }

def cx2 : Sys := { cx1 with
  owner := Function.update cx1.owner 0 (some (RState.loaded cx1.src)) }

def cx3 : Sys := { cx2 with
  src := 16, limbo := cx2.src :: cx2.limbo, used := 16 :: cx2.used }

def cx4 : Sys := { cx3 with limbo := cx3.limbo.erase 8, queue := 8 :: cx3.queue }

def cx5 : Sys := { cx4 with scan := some ⟨8, 0, false⟩ }

def cx6 : Sys := { cx5 with
  scan := some ⟨8, 0 + 1, false || hazardHit 8 (cx5.cells 0)⟩ }

def cx7 : Sys := { cx6 with
  cells := Function.update cx6.cells 0 8,
  owner := Function.update cx6.owner 0 (some (RState.stored 8)) }

def cx8 : Sys := { cx7 with
  queue := cx7.queue.erase 8,
  deleted := 8 :: cx7.deleted,
  scan := none }

theorem cx_reach : Reach 1 (init_sys 8) cx8 := by
  have h1 : Step 1 cx0 cx1 := Step.capture cx0 0 (by decide) (by decide) (by decide)
  have h2 : Step 1 cx1 cx2 := Step.load cx1 0 (by decide) (by decide)
  have h3 : Step 1 cx2 cx3 := Step.unlink cx2 16 (by decide) (by decide)
  have h4 : Step 1 cx3 cx4 := Step.retireStep cx3 8 (by decide)
  have h5 : Step 1 cx4 cx5 := Step.scanStart cx4 8 (by decide) (by decide)
  have h6 : Step 1 cx5 cx6 := Step.scanRead cx5 8 0 false (by decide) (by decide)
  have h7 : Step 1 cx6 cx7 := Step.storeCand cx6 0 8 (by decide) (by decide)
  have h8 : Step 1 cx7 cx8 := Step.scanDelete cx7 8 (by decide)
  exact Reach.tail _ _ (Reach.tail _ _ (Reach.tail _ _ (Reach.tail _ _ (Reach.tail _ _
    (Reach.tail _ _ (Reach.tail _ _ (Reach.tail _ _ Reach.refl h1) h2) h3) h4) h5) h6) h7) h8

/-- C1 counterexample: an interleaving of the modelled code in which
object 8 is deleted by the reclamation pass while the live handle
owning cell 0 currently holds exactly 8 (the reader published its
stale candidate after the scan had already passed its cell), refuting
the claim that no object is deleted while some live handle's cell
holds its address.  The reader's protection attempt is unverified at
that point, and its subsequent reload would fail. -/
theorem C1_counterexample :
    Reach 1 (init_sys 8) cx8 ∧ 8 ∈ cx8.deleted ∧ cx8.cells 0 = 8 ∧
    cx8.owner 0 = some (RState.stored 8) :=
  ⟨cx_reach, by decide, by decide, by decide⟩

/-- C1 amended: for all interleavings of reader, writer and reclaimer
steps, no object is deleted while some live handle holds an
established (verified) protection on it: whenever a reader's
try_protect reload has confirmed its published candidate and the
protection has not since been reset or released, that object is not in
the deleted set.  The unamended claim, quantifying over any cell that
merely holds the address (including an unverified stale publish),
fails; the counterexample forces restricting it to established
protections. -/
theorem C1_safety :
    ∀ (N a0 : Nat) (s : Sys) (r p : Nat), goodPtr a0 →
      Reach N (init_sys a0) s →
      s.owner r = some (RState.verified p) → p ∉ s.deleted := by
  intro N a0 s r p ha hreach hown
  exact (reach_inv ha hreach).verified_live r p hown

def wx1 : Sys := { init_sys 8 with
  cells := Function.update (init_sys 8).cells 0 sentinelPtr,
  owner := Function.update (init_sys 8).owner 0 (some RState.idle) }

def wx2 : Sys := { wx1 with
  owner := Function.update wx1.owner 0 (some (RState.loaded wx1.src)) }

def wx3 : Sys := { wx2 with
  cells := Function.update wx2.cells 0 8,
  owner := Function.update wx2.owner 0 (some (RState.stored 8)) }

def wx4 : Sys := { wx3 with
  owner := Function.update wx3.owner 0 (some (RState.verified 8)) }

/-- Witness for the amended C1 at a concrete reachable state: one
reader captures cell 0, loads candidate 8, publishes it and verifies
it against the unchanged source; the safety theorem then yields that 8
is not deleted there. -/
theorem C1_safety_witness :
    goodPtr 8 ∧ Reach 1 (init_sys 8) wx4 ∧
    wx4.owner 0 = some (RState.verified 8) ∧ 8 ∉ wx4.deleted := by
  have hg : goodPtr 8 := by decide
  have h1 : Step 1 (init_sys 8) wx1 :=
    Step.capture (init_sys 8) 0 (by decide) (by decide) (by decide)
  have h2 : Step 1 wx1 wx2 := Step.load wx1 0 (by decide) (by decide)
  have h3 : Step 1 wx2 wx3 := Step.storeCand wx2 0 8 (by decide) (by decide)
  have h4 : Step 1 wx3 wx4 := Step.verifyOk wx3 0 8 (by decide) (by decide) (by decide)
  have hreach : Reach 1 (init_sys 8) wx4 :=
    Reach.tail _ _ (Reach.tail _ _ (Reach.tail _ _ (Reach.tail _ _ Reach.refl h1) h2) h3) h4
  have hown : wx4.owner 0 = some (RState.verified 8) := by decide
  exact ⟨hg, hreach, hown, C1_safety 1 8 wx4 0 8 hg hreach hown⟩

end Conc
